import Mathlib

/-!
Shallow embedding of the event queue core (`CEventQueue.cpp`) and proofs of
the specified properties.

Modelling conventions:
* opaque C++ pointers (`void*` targets, `IEventJob*` handlers, backend timer
  handles) are modelled as `Nat` identities (`0` plays the role of `NULL`);
* `double` times are modelled as rationals `ℚ`;
* the abstract backend buffer is modelled by the list of user-event ids it
  holds; whether `IEventQueueBuffer::addEvent` succeeds is an oracle input;
* side effects that the claims observe (calls to the payload-deletion hook
  `CEvent::deleteData`, ids submitted to the buffer, ids returned by
  `saveEvent`) are recorded in ghost log fields of the state.
-/

namespace CEventQueue

/-- Reserved event types of `CEvent::Type`: `kUnknown = 0`, then `kQuit`,
`kSystem`, `kTimer`, `kLast`. -/
def kUnknown : Nat := 0

def kQuit : Nat := 1

def kSystem : Nat := 2

def kTimer : Nat := 3

def kLast : Nat := 4

/-- A `CEvent`: type tag, opaque target, optional opaque payload. -/
structure CEvent where
  etype : Nat
  target : Nat
  data : Option Nat
deriving DecidableEq, Repr

/-- The default-constructed `CEvent()` returned by `removeEvent` on a miss. -/
def defaultCEvent : CEvent := ⟨kUnknown, 0, none⟩

/-- `std::map::find` / lookup in an association list. -/
def mapLookup {κ α : Type} [DecidableEq κ] (k : κ) : List (κ × α) → Option α
  | [] => none
  | (k2, v) :: rest => if k2 = k then some v else mapLookup k rest

/-- `std::map` `operator[]` assignment: replace the value at an existing key,
otherwise add a fresh entry. -/
def mapInsert {κ α : Type} [DecidableEq κ] (k : κ) (v : α) :
    List (κ × α) → List (κ × α)
  | [] => [(k, v)]
  | (k2, v2) :: rest =>
    if k2 = k then (k2, v) :: rest else (k2, v2) :: mapInsert k v rest

/-- `std::map::erase` at a key: drop the (first) entry with that key. -/
def mapErase {κ α : Type} [DecidableEq κ] (k : κ) :
    List (κ × α) → List (κ × α)
  | [] => []
  | (k2, v2) :: rest => if k2 = k then rest else (k2, v2) :: mapErase k rest

/-- A timer record `CEventQueue::CTimer`: backend handle, original timeout,
remaining time, target, one-shot flag. -/
structure CTimer where
  timer : Nat
  timeout : ℚ
  time : ℚ
  target : Nat
  oneShot : Bool
deriving DecidableEq, Repr

/-- The shared `CTimerEvent` payload. -/
structure CTimerEvent where
  timer : Nat
  count : Nat
deriving DecidableEq, Repr

/-- State of the queue: the event-data table `m_events`, the free-id stack
`m_oldEventIDs` (head = `back()`), the buffer contents, the timer priority
queue `m_timerQueue`, and ghost logs of observable effects: payloads passed
to `CEvent::deleteData`, ids passed to `m_buffer->addEvent`, ids returned by
`saveEvent` since the last `adoptBuffer` (`allocLog`) and ever (`allocEver`). -/
structure QState where
  events : List (Nat × CEvent)
  oldEventIDs : List Nat
  buffer : List Nat
  timerQueue : List CTimer
  deleted : List CEvent
  submitted : List Nat
  allocLog : List Nat
  allocEver : List Nat
deriving DecidableEq, Repr

/-- The freshly constructed queue: everything empty, a fresh simple buffer. -/
def initState : QState :=
  { events := [], oldEventIDs := [], buffer := [], timerQueue := [],
    deleted := [], submitted := [], allocLog := [], allocEver := [] }

/-- Ids currently present in the event-data table. -/
def tableIds (s : QState) : List Nat := s.events.map Prod.fst

/-- `CEventQueue::saveEvent`: pop a free id if the stack is non-empty,
otherwise allocate `m_events.size()`; store the event; return the id. -/
def saveEvent (s : QState) (e : CEvent) : Nat × QState :=
  match s.oldEventIDs with
  | id :: rest =>
    (id, { s with events := mapInsert id e s.events, oldEventIDs := rest,
                  allocLog := s.allocLog ++ [id],
                  allocEver := s.allocEver ++ [id] })
  | [] =>
    let id := s.events.length
    (id, { s with events := mapInsert id e s.events,
                  allocLog := s.allocLog ++ [id],
                  allocEver := s.allocEver ++ [id] })

/-- `CEventQueue::removeEvent`: on a miss return `CEvent()`; otherwise
extract the stored event, erase the entry, push the id on the free stack. -/
def removeEvent (s : QState) (id : Nat) : CEvent × QState :=
  match mapLookup id s.events with
  | none => (defaultCEvent, s)
  | some e =>
    (e, { s with events := mapErase id s.events,
                 oldEventIDs := id :: s.oldEventIDs })

/-- The `switch` at the top of `CEventQueue::addEvent` discarding bogus
event types. -/
def isReservedType (t : Nat) : Bool :=
  t == kUnknown || t == kSystem || t == kTimer

/-- `CEventQueue::addEvent`: drop reserved types; otherwise save the event,
submit the id to the buffer (`accept` is the buffer's verdict), and on
failure remove the id again and delete the payload. -/
def addEvent (s : QState) (e : CEvent) (accept : Bool) : QState :=
  if isReservedType e.etype then s
  else
    let p := saveEvent s e
    let s1 := { p.2 with submitted := p.2.submitted ++ [p.1] }
    if accept then { s1 with buffer := s1.buffer ++ [p.1] }
    else
      let s2 := (removeEvent s1 p.1).2
      { s2 with deleted := s2.deleted ++ [e] }

/-- `CEventQueue::adoptBuffer`: delete the old buffer, run the payload
deletion hook on every stored event, clear the table and the free stack,
install the new buffer (a fresh simple buffer when the argument is null). -/
def adoptBuffer (s : QState) (newBuf : Option (List Nat)) : QState :=
  { s with deleted := s.deleted ++ s.events.map Prod.snd,
           events := [], oldEventIDs := [],
           allocLog := [],
           buffer := newBuf.getD [] }

/-- A verdict of `IEventQueueBuffer::getEvent`. -/
inductive BufVerdict where
  | vNone : BufVerdict
  | vSystem : BufVerdict
  | vUser (id : Nat) : BufVerdict
deriving DecidableEq, Repr

/-- Control outcome of one pass through the `switch` in
`CEventQueue::getEvent` after the buffer yields a verdict. -/
inductive GetEventOutcome where
  | retry : GetEventOutcome
  | ret (b : Bool) : GetEventOutcome
deriving DecidableEq, Repr

/-- The `switch (type)` in `CEventQueue::getEvent` on the buffer verdict:
`kNone` retries when `timeout < 0.0 || timeout <= timer.getTime()`, else
returns false; `kSystem` returns true; `kUser` removes the saved event and
returns true.  `elapsed` is the stopwatch reading `timer.getTime()`. -/
def getEventVerdictStep (s : QState) (timeout elapsed : ℚ) (v : BufVerdict) :
    GetEventOutcome × QState :=
  match v with
  | .vNone =>
    (if timeout < 0 ∨ timeout ≤ elapsed then .retry else .ret false, s)
  | .vSystem => (.ret true, s)
  | .vUser id => (.ret true, (removeEvent s id).2)

/-- The handler table `m_handlers`: keyed by `CTypeTarget = (type, target)`,
values are opaque `IEventJob*` identities. -/
abbrev HandlerTable : Type := List ((Nat × Nat) × Nat)

/-- `CEventQueue::getHandler`: look up `(type, target)`, falling back to
`(kUnknown, target)`; null (`none`) when neither is installed. -/
def getHandler (hs : HandlerTable) (ty target : Nat) : Option Nat :=
  match mapLookup (ty, target) hs with
  | some job => some job
  | none => mapLookup (kUnknown, target) hs

/-- `CEventQueue::dispatchEvent`: fetch the handler for the event; when one
is found run it and return true, otherwise return false.  The second
component records which job (if any) was run. -/
def dispatchEvent (hs : HandlerTable) (e : CEvent) : Bool × Option Nat :=
  match getHandler hs e.etype e.target with
  | some job => (true, some job)
  | none => (false, none)

/-- The type registry: `m_typeMap` plus the allocation counter `m_nextType`
(initialised to `kLast` in the constructor). -/
structure TypeRegistry where
  typeMap : List (Nat × String)
  nextType : Nat
deriving DecidableEq, Repr

/-- `std::map::insert`: adds the entry only when the key is absent. -/
def tmInsert (k : Nat) (v : String) (m : List (Nat × String)) :
    List (Nat × String) :=
  if k ∈ m.map Prod.fst then m else m ++ [(k, v)]

/-- `CEventQueue::registerTypeOnce`: when the slot is `kUnknown` allocate
`m_nextType`, record the name, bump the counter and write the slot;
otherwise leave everything unchanged.  Returns
(returned type, new slot value, new registry). -/
def registerTypeOnce (r : TypeRegistry) (slot : Nat) (name : String) :
    Nat × Nat × TypeRegistry :=
  if slot = kUnknown then
    (r.nextType, r.nextType,
      { typeMap := tmInsert r.nextType name r.typeMap,
        nextType := r.nextType + 1 })
  else (slot, slot, r)

/-- Pop a minimal element (by remaining time) from the timer queue: the
`top()`/`pop()` of the priority queue, returning the rest of the queue.
Among ties the earliest element is chosen (the concrete heap's choice is
unspecified; any minimal element is a faithful determinisation). -/
def popMin : List CTimer → Option (CTimer × List CTimer)
  | [] => none
  | t :: ts =>
    match popMin ts with
    | none => some (t, [])
    | some (m, rest) =>
      if t.time ≤ m.time then some (t, ts) else some (m, t :: rest)

/-- `CTimer::operator-=`: subtract elapsed time from the remaining time. -/
def subTimer (d : ℚ) (t : CTimer) : CTimer := { t with time := t.time - d }

/-- `CTimer::reset`: remaining time back to the original timeout. -/
def timerReset (t : CTimer) : CTimer := { t with time := t.timeout }

/-- `CTimer::fillEvent`: count is 0, except when the remaining time is ≤ 0
it is `(timeout - time) / timeout` truncated to an integer (the value is
≥ 1 there, so `static_cast<UInt32>` is the floor). -/
def fillEvent (t : CTimer) : CTimerEvent :=
  { timer := t.timer,
    count := if t.time ≤ 0 then ((t.timeout - t.time) / t.timeout).floor.toNat
             else 0 }

/-- The event produced by an expired timer:
`CEvent(CEvent::kTimer, timer.getTarget(), &m_timerEvent)`. -/
structure TimerFire where
  etype : Nat
  target : Nat
  payload : CTimerEvent
deriving DecidableEq, Repr

/-- `CEventQueue::hasTimerExpired` with the stopwatch reading `d` as input:
empty queue means no expiry; otherwise subtract `d` from every record, stop
if the minimum is still positive, else pop the minimum, fill the timer
event, reset the popped record and reinsert it unless it is one-shot.
Returns the fired event (if any) and the updated queue. -/
def hasTimerExpired (d : ℚ) (q : List CTimer) :
    Option TimerFire × List CTimer :=
  match q with
  | [] => (none, [])
  | _ :: _ =>
    let q1 := q.map (subTimer d)
    match popMin q1 with
    | none => (none, q1)
    | some (t, rest) =>
      if 0 < t.time then (none, q1)
      else
        (some ⟨kTimer, t.target, fillEvent t⟩,
         if t.oneShot then rest else timerReset t :: rest)

/-- `CEventQueue::getNextTimerTimeout`: −1 when no timers, 0 when the top
timer has expired, otherwise the top timer's remaining time.  Crucially it
reads the stored remaining times only; the clock is not consulted. -/
def getNextTimerTimeout (q : List CTimer) : ℚ :=
  match popMin q with
  | none => -1
  | some (t, _) => if t.time ≤ 0 then 0 else t.time

/-- `CEventQueue::isEmpty`: buffer empty and no timer currently due. -/
def isEmpty (s : QState) : Bool :=
  s.buffer.isEmpty && !(decide (getNextTimerTimeout s.timerQueue = 0))

/-- States reachable from the fresh queue by the public operations the
claims range over: `addEvent` (with an arbitrary buffer verdict), the
verdict-processing step of `getEvent` (with arbitrary buffer verdict and
stopwatch reading), and `adoptBuffer`. -/
inductive Reachable : QState → Prop where
  | init : Reachable initState
  | add (s : QState) (e : CEvent) (accept : Bool) :
      Reachable s → Reachable (addEvent s e accept)
  | getev (s : QState) (timeout elapsed : ℚ) (v : BufVerdict) :
      Reachable s → Reachable (getEventVerdictStep s timeout elapsed v).2
  | adopt (s : QState) (newBuf : Option (List Nat)) :
      Reachable s → Reachable (adoptBuffer s newBuf)

/-- The table/free-stack bookkeeping invariant: the table ids followed by
the free stack are a permutation of `{0, …, highWater−1}` where `highWater`
is the total number of slots (table size + stack size), and the ids
allocated since the last buffer swap are exactly those below `highWater`. -/
def TableInv (s : QState) : Prop :=
  (tableIds s ++ s.oldEventIDs).Perm
      (List.range (s.events.length + s.oldEventIDs.length)) ∧
  (∀ i, i ∈ s.allocLog ↔ i < s.events.length + s.oldEventIDs.length)

/-! Helper lemmas about the association-list operations. -/

theorem mapLookup_mapInsert_self {κ α : Type} [DecidableEq κ] (k : κ) (v : α)
    (l : List (κ × α)) : mapLookup k (mapInsert k v l) = some v := by
  induction l with
  | nil => simp [mapInsert, mapLookup]
  | cons p rest ih =>
    by_cases h : p.1 = k
    · simp [mapInsert, mapLookup, h]
    · simpa [mapInsert, mapLookup, h] using ih

theorem mapInsert_notMem {κ α : Type} [DecidableEq κ] {k : κ} (v : α)
    {l : List (κ × α)} (h : k ∉ l.map Prod.fst) :
    mapInsert k v l = l ++ [(k, v)] := by
  induction l with
  | nil => simp [mapInsert]
  | cons p rest ih =>
    simp only [List.map_cons, List.mem_cons] at h
    push_neg at h
    have hp : ¬ p.1 = k := fun hh => h.1 hh.symm
    simp [mapInsert, hp, ih h.2]

theorem mapErase_append_self {κ α : Type} [DecidableEq κ] {k : κ} (v : α)
    {l : List (κ × α)} (h : k ∉ l.map Prod.fst) :
    mapErase k (l ++ [(k, v)]) = l := by
  induction l with
  | nil => simp [mapErase]
  | cons p rest ih =>
    simp only [List.map_cons, List.mem_cons] at h
    push_neg at h
    have hp : ¬ p.1 = k := fun hh => h.1 hh.symm
    simp [mapErase, hp, ih h.2]

theorem mapLookup_eq_none_iff {κ α : Type} [DecidableEq κ] (k : κ)
    (l : List (κ × α)) : mapLookup k l = none ↔ k ∉ l.map Prod.fst := by
  induction l with
  | nil => simp [mapLookup]
  | cons p rest ih =>
    by_cases h : p.1 = k
    · simp [mapLookup, h]
    · have hk : ¬ k = p.1 := fun hh => h hh.symm
      simp [mapLookup, h, ih, hk]

theorem mem_keys_of_mapLookup_eq_some {κ α : Type} [DecidableEq κ] {k : κ}
    {l : List (κ × α)} {v : α} (h : mapLookup k l = some v) :
    k ∈ l.map Prod.fst := by
  by_contra hk
  rw [← mapLookup_eq_none_iff k l] at hk
  rw [h] at hk
  exact Option.noConfusion hk

theorem keys_mapErase {κ α : Type} [DecidableEq κ] (k : κ)
    (l : List (κ × α)) :
    (mapErase k l).map Prod.fst = (l.map Prod.fst).erase k := by
  induction l with
  | nil => simp [mapErase]
  | cons p rest ih =>
    by_cases h : p.1 = k
    · simp [mapErase, h, List.erase_cons]
    · simp [mapErase, h, List.erase_cons, ih]

theorem length_mapErase_of_mem {κ α : Type} [DecidableEq κ] {k : κ}
    {l : List (κ × α)} (h : k ∈ l.map Prod.fst) :
    (mapErase k l).length + 1 = l.length := by
  induction l with
  | nil => simp at h
  | cons p rest ih =>
    by_cases hp : p.1 = k
    · simp [mapErase, hp]
    · have hk : k ∈ rest.map Prod.fst := by
        simp only [List.map_cons, List.mem_cons] at h
        rcases h with h | h
        · exact absurd h.symm hp
        · exact h
      have := ih hk
      simp only [mapErase, if_neg hp, List.length_cons]
      omega

/-! Helper lemmas about `popMin`. -/

theorem popMin_eq_none_iff {q : List CTimer} : popMin q = none ↔ q = [] := by
  cases q with
  | nil => simp [popMin]
  | cons t ts =>
    rcases h : popMin ts with _ | ⟨m, rest⟩
    · simp [popMin, h]
    · simp only [popMin, h]
      by_cases hle : t.time ≤ m.time <;> simp [hle]

theorem popMin_perm : ∀ {q : List CTimer} {t : CTimer} {rest : List CTimer},
    popMin q = some (t, rest) → (t :: rest).Perm q := by
  intro q
  induction q with
  | nil => intro t rest h; simp [popMin] at h
  | cons x xs ih =>
    intro t rest h
    rcases h2 : popMin xs with _ | ⟨m, mrest⟩
    · simp only [popMin, h2, Option.some.injEq, Prod.mk.injEq] at h
      obtain ⟨rfl, rfl⟩ := h
      have hx : xs = [] := popMin_eq_none_iff.mp h2
      subst hx
      exact List.Perm.refl _
    · simp only [popMin, h2] at h
      by_cases hle : x.time ≤ m.time
      · rw [if_pos hle] at h
        simp only [Option.some.injEq, Prod.mk.injEq] at h
        obtain ⟨rfl, rfl⟩ := h
        exact List.Perm.refl _
      · rw [if_neg hle] at h
        simp only [Option.some.injEq, Prod.mk.injEq] at h
        obtain ⟨rfl, rfl⟩ := h
        exact (List.Perm.swap x m mrest).trans ((ih h2).cons x)

theorem popMin_min : ∀ {q : List CTimer} {t : CTimer} {rest : List CTimer},
    popMin q = some (t, rest) → ∀ u ∈ q, t.time ≤ u.time := by
  intro q
  induction q with
  | nil => intro t rest h; simp [popMin] at h
  | cons x xs ih =>
    intro t rest h u hu
    rcases h2 : popMin xs with _ | ⟨m, mrest⟩
    · simp only [popMin, h2, Option.some.injEq, Prod.mk.injEq] at h
      obtain ⟨rfl, rfl⟩ := h
      have hx : xs = [] := popMin_eq_none_iff.mp h2
      subst hx
      rcases List.mem_cons.mp hu with rfl | hu
      · exact le_refl _
      · simp at hu
    · simp only [popMin, h2] at h
      by_cases hle : x.time ≤ m.time
      · rw [if_pos hle] at h
        simp only [Option.some.injEq, Prod.mk.injEq] at h
        obtain ⟨rfl, rfl⟩ := h
        rcases List.mem_cons.mp hu with rfl | hu
        · exact le_refl _
        · exact hle.trans (ih h2 u hu)
      · rw [if_neg hle] at h
        simp only [Option.some.injEq, Prod.mk.injEq] at h
        obtain ⟨rfl, rfl⟩ := h
        rcases List.mem_cons.mp hu with rfl | hu
        · exact (lt_of_not_le hle).le
        · exact ih h2 u hu

/-- Fields of the state that `saveEvent` leaves alone, and the effect on the
table and the ghost allocation logs. -/
theorem saveEvent_fields (s : QState) (e : CEvent) :
    (saveEvent s e).2.events = mapInsert (saveEvent s e).1 e s.events ∧
    (saveEvent s e).2.buffer = s.buffer ∧
    (saveEvent s e).2.deleted = s.deleted ∧
    (saveEvent s e).2.submitted = s.submitted ∧
    (saveEvent s e).2.timerQueue = s.timerQueue ∧
    (saveEvent s e).2.allocLog = s.allocLog ++ [(saveEvent s e).1] ∧
    (saveEvent s e).2.allocEver = s.allocEver ++ [(saveEvent s e).1] := by
  cases h : s.oldEventIDs <;> simp [saveEvent, h]

theorem isReservedType_eq_false (t : Nat) (h1 : t ≠ kUnknown)
    (h2 : t ≠ kSystem) (h3 : t ≠ kTimer) : isReservedType t = false := by
  simp only [isReservedType, kUnknown, kSystem, kTimer] at *
  simp [h1, h2, h3]

/-- Claim C2: `addEvent` on an event whose type is Unknown, System or Timer
returns with the whole state unchanged (table, free stack, buffer, deletion
log, submission log); on every other type (Quit included) it saves the
event under an id and submits that id to the buffer. -/
theorem c2_reserved_types_dropped (s : QState) (e : CEvent) (accept : Bool) :
    (e.etype = kUnknown ∨ e.etype = kSystem ∨ e.etype = kTimer →
      addEvent s e accept = s) ∧
    (e.etype ≠ kUnknown → e.etype ≠ kSystem → e.etype ≠ kTimer →
      (addEvent s e accept).submitted = s.submitted ++ [(saveEvent s e).1] ∧
      (addEvent s e accept).allocEver = s.allocEver ++ [(saveEvent s e).1] ∧
      (accept = true →
        (addEvent s e accept).buffer = s.buffer ++ [(saveEvent s e).1] ∧
        mapLookup (saveEvent s e).1 (addEvent s e accept).events =
          some e)) := by
  refine ⟨fun h => ?_, fun h1 h2 h3 => ?_⟩
  · have hres : isReservedType e.etype = true := by
      rcases h with h | h | h <;> simp [isReservedType, h]
    simp [addEvent, hres]
  · have hres : isReservedType e.etype = false :=
      isReservedType_eq_false _ h1 h2 h3
    obtain ⟨hev, hbuf, hdel, hsub, htq, hlog, hever⟩ := saveEvent_fields s e
    cases accept with
    | true =>
      refine ⟨?_, ?_, fun _ => ⟨?_, ?_⟩⟩ <;>
        simp [addEvent, hres, hev, hbuf, hsub, hever,
              mapLookup_mapInsert_self]
    | false =>
      have hlook := mapLookup_mapInsert_self (saveEvent s e).1 e s.events
      refine ⟨?_, ?_, fun hc => by cases hc⟩ <;>
        simp [addEvent, hres, removeEvent, hev, hsub, hever, hlook]

/-- Claim C3: `dispatchEvent` invokes the exact handler under
`(type, target)` when one is installed, otherwise the wildcard handler
under `(Unknown, target)`, returning true in both cases; when neither is
installed no handler runs and it returns false. -/
theorem c3_handler_fallback (hs : HandlerTable) (e : CEvent) :
    (∀ job, mapLookup (e.etype, e.target) hs = some job →
      dispatchEvent hs e = (true, some job)) ∧
    (mapLookup (e.etype, e.target) hs = none →
      ∀ job, mapLookup (kUnknown, e.target) hs = some job →
        dispatchEvent hs e = (true, some job)) ∧
    (mapLookup (e.etype, e.target) hs = none →
      mapLookup (kUnknown, e.target) hs = none →
      dispatchEvent hs e = (false, none)) := by
  refine ⟨fun job h => ?_, fun h job h2 => ?_, fun h h2 => ?_⟩ <;>
    simp [dispatchEvent, getHandler, h] <;> simp [h2]

/-- Claim C6: `adoptBuffer` runs the payload-deletion hook exactly once per
entry of the event-data table (the deletion log grows by exactly the list
of stored payloads), clears the table and the free-id stack, and installs
the given buffer, or a fresh (empty) simple buffer when given null. -/
theorem c6_adopt_buffer_flushes (s : QState) (newBuf : Option (List Nat)) :
    (adoptBuffer s newBuf).deleted = s.deleted ++ s.events.map Prod.snd ∧
    (adoptBuffer s newBuf).deleted.length =
      s.deleted.length + s.events.length ∧
    (adoptBuffer s newBuf).events = [] ∧
    (adoptBuffer s newBuf).oldEventIDs = [] ∧
    (adoptBuffer s newBuf).buffer = newBuf.getD [] := by
  simp [adoptBuffer]

/-- Claim C7: `registerTypeOnce` on a slot holding `kUnknown` allocates the
next type id exactly once, records the name, writes the slot and returns
the id; calling it again on the written slot returns the same id and
changes nothing; on a slot not holding `kUnknown` it changes nothing and
returns the slot. -/
theorem c7_register_type_once (r : TypeRegistry) (slot : Nat) (name : String)
    (hz : slot = kUnknown) (hf : r.nextType ∉ r.typeMap.map Prod.fst)
    (hnz : r.nextType ≠ kUnknown) :
    registerTypeOnce r slot name =
      (r.nextType, r.nextType,
        ⟨r.typeMap ++ [(r.nextType, name)], r.nextType + 1⟩) ∧
    mapLookup r.nextType (r.typeMap ++ [(r.nextType, name)]) = some name ∧
    registerTypeOnce
        ⟨r.typeMap ++ [(r.nextType, name)], r.nextType + 1⟩ r.nextType
        name =
      (r.nextType, r.nextType,
        ⟨r.typeMap ++ [(r.nextType, name)], r.nextType + 1⟩) ∧
    (∀ s2, s2 ≠ kUnknown → registerTypeOnce r s2 name = (s2, s2, r)) := by
  refine ⟨?_, ?_, ?_, fun s2 h => ?_⟩
  · simp [registerTypeOnce, hz, tmInsert, hf]
  · rw [← mapInsert_notMem (k := r.nextType) name hf]
    exact mapLookup_mapInsert_self _ _ _
  · simp [registerTypeOnce, hnz]
  · simp [registerTypeOnce, h]

/-- Claim C8 counterexample: with a finite timeout that has not yet elapsed
(timeout 1, stopwatch 0), a `kNone` buffer verdict makes `getEvent` return
false directly instead of re-entering the wait loop. -/
theorem c8_counterexample :
    (getEventVerdictStep initState 1 0 .vNone).1 =
      GetEventOutcome.ret false := by
  norm_num [getEventVerdictStep]

/-- Claim C8 (amended): a `kNone` verdict re-enters the wait loop exactly
when the timeout is infinite (negative) or already used up
(`timeout ≤ elapsed`); otherwise `getEvent` returns false.  The state is
untouched either way. -/
theorem c8_none_verdict_branch (s : QState) (timeout elapsed : ℚ) :
    ((getEventVerdictStep s timeout elapsed .vNone).1 =
        GetEventOutcome.retry ↔ timeout < 0 ∨ timeout ≤ elapsed) ∧
    (getEventVerdictStep s timeout elapsed .vNone).2 = s := by
  by_cases h : timeout < 0 ∨ timeout ≤ elapsed <;>
    simp [getEventVerdictStep, h]

/-- Claim C4: the timer expiry sweep.  Empty queue: no fire.  Otherwise the
elapsed time is subtracted from every record (which preserves relative
order); if the minimal remaining time is still positive nothing fires (but
the subtraction is kept); otherwise the minimal record is popped, the fired
event carries type Timer, the record's target and the overshoot count
(floor of (timeout − remaining)/timeout when remaining ≤ 0, else 0), the
popped record's remaining time is reset to its timeout, and it is
reinserted exactly when it is not one-shot. -/
theorem c4_timer_sweep (d : ℚ) (q : List CTimer) :
    (q = [] → hasTimerExpired d q = (none, [])) ∧
    (∀ t u : CTimer,
      ((subTimer d t).time ≤ (subTimer d u).time ↔ t.time ≤ u.time)) ∧
    (∀ t rest, popMin (q.map (subTimer d)) = some (t, rest) →
      (t :: rest).Perm (q.map (subTimer d)) ∧
      (∀ u ∈ q.map (subTimer d), t.time ≤ u.time) ∧
      (0 < t.time → hasTimerExpired d q = (none, q.map (subTimer d))) ∧
      (t.time ≤ 0 →
        hasTimerExpired d q =
          (some ⟨kTimer, t.target, fillEvent t⟩,
            if t.oneShot then rest else timerReset t :: rest) ∧
        (fillEvent t).count =
          ((t.timeout - t.time) / t.timeout).floor.toNat ∧
        (fillEvent t).timer = t.timer ∧
        (timerReset t).time = t.timeout)) ∧
    (∀ t : CTimer, ¬ t.time ≤ 0 → (fillEvent t).count = 0) := by
  refine ⟨fun h => ?_, fun t u => ?_, fun t rest hpop => ?_, fun t h => ?_⟩
  · subst h; simp [hasTimerExpired]
  · simp [subTimer, sub_le_sub_iff_right]
  · have hq : q ≠ [] := by
      intro h; subst h; simp [popMin] at hpop
    refine ⟨popMin_perm hpop, popMin_min hpop, fun hgt => ?_,
            fun hle => ?_⟩
    · cases q with
      | nil => exact absurd rfl hq
      | cons x xs =>
        rw [List.map_cons] at hpop
        simp [hasTimerExpired, hpop, hgt]
    · have hnot : ¬ (0 < t.time) := not_lt.mpr hle
      cases q with
      | nil => exact absurd rfl hq
      | cons x xs =>
        refine ⟨?_, ?_, rfl, rfl⟩
        · rw [List.map_cons] at hpop
          simp [hasTimerExpired, hpop, hnot]
        · simp [fillEvent, hle]
  · simp [fillEvent, h]

/-- Witness for C4: for elapsed time 1 and a single one-shot timer with
timeout 2 and stored remaining 1, the sweep fires the timer with count 1
and does not reinsert it. -/
theorem c4_timer_sweep_witness :
    hasTimerExpired 1 [⟨6, 2, 1, 7, true⟩] =
      (some ⟨kTimer, 7, fillEvent ⟨6, 2, 0, 7, true⟩⟩, []) ∧
    (fillEvent ⟨6, 2, 0, 7, true⟩).count =
      (((2 : ℚ) - 0) / 2).floor.toNat ∧
    (fillEvent ⟨6, 2, 0, 7, true⟩).timer = 6 ∧
    (timerReset ⟨6, 2, 0, 7, true⟩).time = 2 :=
  ((c4_timer_sweep 1 [⟨6, 2, 1, 7, true⟩]).2.2.1 ⟨6, 2, 0, 7, true⟩ []
      (by norm_num [popMin, subTimer])).2.2.2 (by norm_num)

/-- Claim C9 counterexample: a timer with timeout 1 whose remaining time is
exactly 0 at the pop (stored remaining 1, stopwatch 1) fires with count 1,
not 0. -/
theorem c9_counterexample :
    (hasTimerExpired 1 [⟨6, 1, 1, 7, false⟩]).1 =
      some ⟨kTimer, 7, ⟨6, 1⟩⟩ ∧
    (fillEvent ⟨6, 1, 0, 7, false⟩).count ≠ 0 := by
  constructor
  · norm_num [hasTimerExpired, popMin, subTimer, fillEvent, Rat.floor_def']
  · norm_num [fillEvent, Rat.floor_def']

/-- Claim C9 (amended): when the sweep pops a record whose remaining time
is exactly 0, the count stored in the payload is
floor((timeout − 0)/timeout) = 1, not 0 (the timeout is positive by the
constructor's assertion). -/
theorem c9_zero_remaining_count_one (d : ℚ) (q : List CTimer) (t : CTimer)
    (rest : List CTimer)
    (hpop : popMin (q.map (subTimer d)) = some (t, rest))
    (h0 : t.time = 0) (hpos : 0 < t.timeout) :
    (hasTimerExpired d q).1 = some ⟨kTimer, t.target, fillEvent t⟩ ∧
    (fillEvent t).count = 1 := by
  have hq : q ≠ [] := by
    intro h; subst h; simp [popMin] at hpop
  have hnot : ¬ (0 < t.time) := by rw [h0]; exact lt_irrefl 0
  constructor
  · cases q with
    | nil => exact absurd rfl hq
    | cons x xs =>
      rw [List.map_cons] at hpop
      simp [hasTimerExpired, hpop, hnot]
  · have hle : t.time ≤ 0 := le_of_eq h0
    simp only [fillEvent, if_pos hle, h0, sub_zero,
               div_self (ne_of_gt hpos)]
    norm_num [Rat.floor_def']

/-- Witness for C9: the concrete pop of C9's counterexample run through the
amended statement. -/
theorem c9_zero_remaining_count_one_witness :
    (hasTimerExpired 1 [⟨6, 1, 1, 7, false⟩]).1 =
      some ⟨kTimer, 7, fillEvent ⟨6, 1, 0, 7, false⟩⟩ ∧
    (fillEvent ⟨6, 1, 0, 7, false⟩).count = 1 :=
  c9_zero_remaining_count_one 1 [⟨6, 1, 1, 7, false⟩] ⟨6, 1, 0, 7, false⟩
    [] (by norm_num [popMin, subTimer]) rfl (by norm_num)

/-- Claim C10: `isEmpty` and `getNextTimerTimeout` (like `getHandler`, pure
observers in this embedding — they return values, not states) consult only
the remaining times stored at the last expiry sweep: when every stored
remainder is positive, `getNextTimerTimeout` is positive and `isEmpty` is
true, even for a pending elapsed time `d` for which the sweep
`hasTimerExpired` would fire a timer. -/
theorem c10_observers_stale (s : QState) (d : ℚ) (hbuf : s.buffer = [])
    (hne : s.timerQueue ≠ [])
    (hpos : ∀ t ∈ s.timerQueue, 0 < t.time)
    (hdue : ∃ t ∈ s.timerQueue, t.time ≤ d) :
    isEmpty s = true ∧
    0 < getNextTimerTimeout s.timerQueue ∧
    ((hasTimerExpired d s.timerQueue).1).isSome = true := by
  rcases hq : popMin s.timerQueue with _ | ⟨t, rest⟩
  · exact absurd (popMin_eq_none_iff.mp hq) hne
  have htmem : t ∈ s.timerQueue :=
    (popMin_perm hq).mem_iff.mp (List.mem_cons_self t rest)
  have htpos : 0 < t.time := hpos t htmem
  have hg : getNextTimerTimeout s.timerQueue = t.time := by
    simp [getNextTimerTimeout, hq, not_le.mpr htpos]
  refine ⟨?_, ?_, ?_⟩
  · simp [isEmpty, hbuf, hg, ne_of_gt htpos]
  · rw [hg]; exact htpos
  · obtain ⟨u, hu, hud⟩ := hdue
    cases hqq : s.timerQueue with
    | nil => exact absurd hqq hne
    | cons x xs =>
      rcases hq1 : popMin ((x :: xs).map (subTimer d)) with _ | ⟨t1, rest1⟩
      · have := popMin_eq_none_iff.mp hq1
        simp at this
      · have hmem : subTimer d u ∈ (x :: xs).map (subTimer d) :=
          List.mem_map_of_mem _ (hqq ▸ hu)
        have hmin := popMin_min hq1 _ hmem
        have ht1 : t1.time ≤ 0 := by
          have : t1.time ≤ u.time - d := by simpa [subTimer] using hmin
          linarith
        rw [List.map_cons] at hq1
        simp [hasTimerExpired, hq1, not_lt.mpr ht1]

/-- Witness for C10: a single timer with stored remaining 1 and positive
timeout, buffer empty, and an elapsed time of 5 pending. -/
theorem c10_observers_stale_witness :
    isEmpty { initState with timerQueue := [⟨6, 2, 1, 7, false⟩] } = true ∧
    0 < getNextTimerTimeout
        ({ initState with timerQueue := [⟨6, 2, 1, 7, false⟩] }).timerQueue ∧
    ((hasTimerExpired 5
        ({ initState with
            timerQueue := [⟨6, 2, 1, 7, false⟩] }).timerQueue).1).isSome =
      true :=
  c10_observers_stale { initState with timerQueue := [⟨6, 2, 1, 7, false⟩] }
    5 rfl (by simp) (by intro t ht; simp at ht; subst ht; norm_num)
    ⟨⟨6, 2, 1, 7, false⟩, by simp, by norm_num⟩

/-! The table/free-stack invariant and its preservation. -/

theorem tableInv_init : TableInv initState := by
  constructor
  · simp [tableIds, initState]
  · intro i; simp [initState]

/-- `TableInv` only reads `events`, `oldEventIDs` and `allocLog`. -/
theorem tableInv_eq_fields {s1 s2 : QState} (hev : s2.events = s1.events)
    (hold : s2.oldEventIDs = s1.oldEventIDs)
    (hlog : s2.allocLog = s1.allocLog) (h : TableInv s1) : TableInv s2 := by
  obtain ⟨h1, h2⟩ := h
  constructor
  · simpa [TableInv, tableIds, hev, hold] using h1
  · simpa [hlog, hev, hold] using h2

/-- `saveEvent` hands out an id that is not in the table, and preserves the
invariant. -/
theorem saveEvent_fresh_and_inv {s : QState} (e : CEvent) (h : TableInv s) :
    (saveEvent s e).1 ∉ tableIds s ∧ TableInv (saveEvent s e).2 := by
  obtain ⟨hperm, hlog⟩ := h
  cases hst : s.oldEventIDs with
  | nil =>
    have hperm0 : (tableIds s).Perm (List.range s.events.length) := by
      have h0 := hperm
      rw [hst, List.append_nil] at h0
      simpa [hst] using h0
    have hlog0 : ∀ j, j ∈ s.allocLog ↔ j < s.events.length := by
      intro j
      have h0 := hlog j
      rw [hst] at h0
      simpa using h0
    have hfresh : s.events.length ∉ tableIds s := by
      intro hmem
      have := hperm0.mem_iff.mp hmem
      simp at this
    have hins : mapInsert s.events.length e s.events =
        s.events ++ [(s.events.length, e)] := mapInsert_notMem e hfresh
    have hstate : (saveEvent s e).2 =
        { s with events := mapInsert s.events.length e s.events,
                 allocLog := s.allocLog ++ [s.events.length],
                 allocEver := s.allocEver ++ [s.events.length] } := by
      simp [saveEvent, hst]
    constructor
    · simpa [saveEvent, hst] using hfresh
    · rw [hstate]
      constructor
      · show ((mapInsert s.events.length e s.events).map Prod.fst ++
            s.oldEventIDs).Perm
            (List.range ((mapInsert s.events.length e s.events).length +
              s.oldEventIDs.length))
        rw [hst, hins]
        simp only [List.map_append, List.map_cons, List.map_nil,
                   List.length_append, List.length_cons, List.length_nil,
                   List.append_nil]
        rw [show s.events.length + (0 + 1) + 0 = s.events.length + 1 by omega]
        have hr : List.range (s.events.length + 1) =
            List.range s.events.length ++ [s.events.length] :=
          List.range_succ s.events.length
        rw [hr]
        exact List.Perm.append hperm0 (List.Perm.refl _)
      · intro i
        show i ∈ s.allocLog ++ [s.events.length] ↔
          i < (mapInsert s.events.length e s.events).length +
            s.oldEventIDs.length
        rw [hst, hins]
        simp only [List.mem_append, List.mem_singleton, List.length_append,
                   List.length_cons, List.length_nil]
        constructor
        · rintro (hi | rfl)
          · have := (hlog0 i).mp hi
            omega
          · omega
        · intro hi
          rcases Nat.lt_succ_iff_lt_or_eq.mp
              (show i < s.events.length + 1 by omega) with hlt | rfl
          · exact Or.inl ((hlog0 i).mpr hlt)
          · exact Or.inr rfl
  | cons a rest =>
    have hnodup : (tableIds s ++ s.oldEventIDs).Nodup :=
      hperm.nodup_iff.mpr (List.nodup_range _)
    rw [List.nodup_append] at hnodup
    obtain ⟨hn1, hn2, hdisj⟩ := hnodup
    have hamem : a ∈ s.oldEventIDs := by
      rw [hst]; exact List.mem_cons_self a rest
    have hfresh : a ∉ tableIds s := fun hat => hdisj hat hamem
    have hins : mapInsert a e s.events = s.events ++ [(a, e)] :=
      mapInsert_notMem e hfresh
    have hah : a < s.events.length + s.oldEventIDs.length := by
      have h1 : a ∈ tableIds s ++ s.oldEventIDs :=
        List.mem_append.mpr (Or.inr hamem)
      have := hperm.mem_iff.mp h1
      simpa using this
    have holen : s.oldEventIDs.length = rest.length + 1 := by
      rw [hst]; rfl
    have hstate : (saveEvent s e).2 =
        { s with events := mapInsert a e s.events, oldEventIDs := rest,
                 allocLog := s.allocLog ++ [a],
                 allocEver := s.allocEver ++ [a] } := by
      simp [saveEvent, hst]
    constructor
    · simpa [saveEvent, hst] using hfresh
    · rw [hstate]
      constructor
      · show ((mapInsert a e s.events).map Prod.fst ++ rest).Perm
            (List.range ((mapInsert a e s.events).length + rest.length))
        rw [hins]
        simp only [List.map_append, List.map_cons, List.map_nil,
                   List.length_append, List.length_cons, List.length_nil]
        rw [show s.events.length + (0 + 1) + rest.length =
            s.events.length + s.oldEventIDs.length by omega]
        rw [List.append_assoc, List.singleton_append, ← hst]
        exact hperm
      · intro i
        show i ∈ s.allocLog ++ [a] ↔
          i < (mapInsert a e s.events).length + rest.length
        rw [hins]
        simp only [List.mem_append, List.mem_singleton, List.length_append,
                   List.length_cons, List.length_nil]
        rw [show s.events.length + (0 + 1) + rest.length =
            s.events.length + s.oldEventIDs.length by omega]
        constructor
        · rintro (hi | rfl)
          · exact (hlog i).mp hi
          · exact hah
        · intro hi
          exact Or.inl ((hlog i).mpr hi)

/-- `removeEvent` preserves the invariant. -/
theorem removeEvent_inv {s : QState} (id : Nat) (h : TableInv s) :
    TableInv (removeEvent s id).2 := by
  obtain ⟨hperm, hlog⟩ := h
  cases hlk : mapLookup id s.events with
  | none =>
    have hstate : (removeEvent s id).2 = s := by simp [removeEvent, hlk]
    rw [hstate]
    exact ⟨hperm, hlog⟩
  | some e =>
    have hmem : id ∈ tableIds s := mem_keys_of_mapLookup_eq_some hlk
    have hlen : (mapErase id s.events).length + 1 = s.events.length :=
      length_mapErase_of_mem hmem
    have hkeys : (mapErase id s.events).map Prod.fst =
        (tableIds s).erase id := keys_mapErase id s.events
    have hstate : (removeEvent s id).2 =
        { s with events := mapErase id s.events,
                 oldEventIDs := id :: s.oldEventIDs } := by
      simp [removeEvent, hlk]
    rw [hstate]
    constructor
    · show ((mapErase id s.events).map Prod.fst ++ id :: s.oldEventIDs).Perm
        (List.range ((mapErase id s.events).length +
          (id :: s.oldEventIDs).length))
      rw [hkeys, show (mapErase id s.events).length +
          (id :: s.oldEventIDs).length =
          s.events.length + s.oldEventIDs.length by simp; omega]
      refine List.Perm.trans List.perm_middle ?_
      exact List.Perm.trans
        (List.Perm.append_right s.oldEventIDs
          (List.perm_cons_erase hmem).symm) hperm
    · intro i
      show i ∈ s.allocLog ↔ i < (mapErase id s.events).length +
        (id :: s.oldEventIDs).length
      rw [show (mapErase id s.events).length +
          (id :: s.oldEventIDs).length =
          s.events.length + s.oldEventIDs.length by simp; omega]
      exact hlog i

/-- `addEvent` preserves the invariant, for any buffer verdict. -/
theorem addEvent_inv {s : QState} (e : CEvent) (accept : Bool)
    (h : TableInv s) : TableInv (addEvent s e accept) := by
  by_cases hres : isReservedType e.etype
  · simpa [addEvent, hres] using h
  · have hinv := (saveEvent_fresh_and_inv e h).2
    cases accept with
    | true =>
      refine tableInv_eq_fields ?_ ?_ ?_ hinv <;> simp [addEvent, hres]
    | false =>
      have h1 : TableInv { (saveEvent s e).2 with
          submitted := (saveEvent s e).2.submitted ++ [(saveEvent s e).1] } :=
        tableInv_eq_fields rfl rfl rfl hinv
      have h2 := removeEvent_inv (saveEvent s e).1 h1
      refine tableInv_eq_fields ?_ ?_ ?_ h2 <;> simp [addEvent, hres]

/-- `adoptBuffer` re-establishes the invariant from scratch. -/
theorem adoptBuffer_inv (s : QState) (nb : Option (List Nat)) :
    TableInv (adoptBuffer s nb) := by
  constructor <;> simp [adoptBuffer, TableInv, tableIds]

/-- Every reachable state satisfies the invariant. -/
theorem reachable_tableInv {s : QState} (h : Reachable s) : TableInv s := by
  induction h with
  | init => exact tableInv_init
  | add s e accept _ ih => exact addEvent_inv e accept ih
  | getev s timeout elapsed v _ ih =>
    cases v with
    | vNone => simpa [getEventVerdictStep] using ih
    | vSystem => simpa [getEventVerdictStep] using ih
    | vUser id => simpa [getEventVerdictStep] using removeEvent_inv id ih
  | adopt s nb _ _ => exact adoptBuffer_inv s nb

/-- Claim C1 counterexample: the reachable state reached by one successful
`addEvent` (allocating id 0) followed by `adoptBuffer` has an empty table
and an empty free stack, yet one distinct id has been allocated over the
whole history — so with highWater read as "number of distinct ids
allocated so far", the union of table ids and stack is not
{0, …, highWater−1}. -/
theorem c1_counterexample :
    Reachable (adoptBuffer (addEvent initState ⟨kQuit, 0, none⟩ true)
      none) ∧
    (adoptBuffer (addEvent initState ⟨kQuit, 0, none⟩ true)
        none).allocEver.dedup.length = 1 ∧
    ¬ ((0 ∈ tableIds (adoptBuffer
          (addEvent initState ⟨kQuit, 0, none⟩ true) none) ∨
        0 ∈ (adoptBuffer (addEvent initState ⟨kQuit, 0, none⟩ true)
          none).oldEventIDs) ↔
      0 < (adoptBuffer (addEvent initState ⟨kQuit, 0, none⟩ true)
          none).allocEver.dedup.length) :=
  ⟨Reachable.adopt _ _ (Reachable.add _ _ _ Reachable.init),
   by decide, by decide⟩

/-- Claim C1 (amended): in every reachable state, the ids in the event-data
table are disjoint from the ids on the free stack, and together they are
exactly {0, …, highWater−1}, where highWater is the number of distinct ids
allocated by `saveEvent` since the queue was created or since the last
`adoptBuffer` (which clears the table and the free stack, restarting the
id space). -/
theorem c1_id_partition (s : QState) (h : Reachable s) :
    (∀ i, ¬ (i ∈ tableIds s ∧ i ∈ s.oldEventIDs)) ∧
    (∀ i, (i ∈ tableIds s ∨ i ∈ s.oldEventIDs) ↔
      i < s.allocLog.dedup.length) := by
  obtain ⟨hperm, hlog⟩ := reachable_tableInv h
  have hnodup : (tableIds s ++ s.oldEventIDs).Nodup :=
    hperm.nodup_iff.mpr (List.nodup_range _)
  rw [List.nodup_append] at hnodup
  obtain ⟨h1, h2, hdisj⟩ := hnodup
  have hcard : s.allocLog.dedup.length =
      s.events.length + s.oldEventIDs.length := by
    have hfs : s.allocLog.toFinset =
        Finset.range (s.events.length + s.oldEventIDs.length) := by
      ext i
      simp [hlog i]
    calc s.allocLog.dedup.length = s.allocLog.toFinset.card :=
          (List.card_toFinset _).symm
      _ = _ := by rw [hfs, Finset.card_range]
  refine ⟨fun i hi => hdisj hi.1 hi.2, fun i => ?_⟩
  rw [hcard]
  constructor
  · intro hi
    have hm : i ∈ tableIds s ++ s.oldEventIDs := List.mem_append.mpr hi
    have := hperm.mem_iff.mp hm
    simpa using this
  · intro hi
    have hm : i ∈ List.range (s.events.length + s.oldEventIDs.length) := by
      simpa using hi
    exact List.mem_append.mp (hperm.mem_iff.mpr hm)

/-- Witness for C1: the id-partition property evaluated at id 0 in the
reachable state produced by one successful `addEvent` on the fresh queue. -/
theorem c1_id_partition_witness :
    (0 ∈ tableIds (addEvent initState ⟨kQuit, 0, none⟩ true) ∨
      0 ∈ (addEvent initState ⟨kQuit, 0, none⟩ true).oldEventIDs) ↔
      0 < (addEvent initState ⟨kQuit, 0, none⟩ true).allocLog.dedup.length :=
  (c1_id_partition (addEvent initState ⟨kQuit, 0, none⟩ true)
    (Reachable.add initState ⟨kQuit, 0, none⟩ true Reachable.init)).2 0

/-- Claim C5 counterexample: starting from the fresh queue (whose free
stack is empty), a rejected `addEvent` restores the table and deletes the
payload, but the free stack ends as [0] — not the empty stack it was
before the call — because the freshly allocated id is pushed onto it. -/
theorem c5_counterexample :
    (addEvent initState ⟨kQuit, 0, none⟩ false).events =
      initState.events ∧
    (addEvent initState ⟨kQuit, 0, none⟩ false).deleted =
      [⟨kQuit, 0, none⟩] ∧
    (addEvent initState ⟨kQuit, 0, none⟩ false).oldEventIDs ≠
      initState.oldEventIDs := by
  refine ⟨by decide, by decide, by decide⟩

/-- Claim C5 (amended): when the buffer rejects the id, `addEvent` restores
the event-data table exactly, leaves the buffer untouched, runs the
payload-deletion hook on the event, and pushes the allocated id onto the
free stack — which restores the stack exactly when the id had been popped
from it, and leaves the freshly allocated id (the old table size) as the
sole change when the stack was empty. -/
theorem c5_buffer_reject_rollback (s : QState) (e : CEvent)
    (hres : isReservedType e.etype = false) (h : TableInv s) :
    (addEvent s e false).events = s.events ∧
    (addEvent s e false).buffer = s.buffer ∧
    (addEvent s e false).deleted = s.deleted ++ [e] ∧
    (s.oldEventIDs ≠ [] →
      (addEvent s e false).oldEventIDs = s.oldEventIDs) ∧
    (s.oldEventIDs = [] →
      (addEvent s e false).oldEventIDs = [s.events.length]) := by
  have hfresh := (saveEvent_fresh_and_inv e h).1
  have hins : mapInsert (saveEvent s e).1 e s.events =
      s.events ++ [((saveEvent s e).1, e)] := mapInsert_notMem e hfresh
  have hlook : mapLookup (saveEvent s e).1
      (mapInsert (saveEvent s e).1 e s.events) = some e :=
    mapLookup_mapInsert_self _ _ _
  have herase : mapErase (saveEvent s e).1
      (mapInsert (saveEvent s e).1 e s.events) = s.events := by
    rw [hins]
    exact mapErase_append_self e hfresh
  obtain ⟨hev, hbuf, hdel, hsub, htq, hlog, hever⟩ := saveEvent_fields s e
  refine ⟨?_, ?_, ?_, fun hne => ?_, fun hnil => ?_⟩
  · simp [addEvent, hres, removeEvent, hev, hlook, herase]
  · simp [addEvent, hres, removeEvent, hev, hlook, hbuf]
  · simp [addEvent, hres, removeEvent, hev, hlook, hdel]
  · cases hst : s.oldEventIDs with
    | nil => exact absurd hst hne
    | cons a rest =>
      have hlook2 : mapLookup a (mapInsert a e s.events) = some e :=
        mapLookup_mapInsert_self a e s.events
      simp [addEvent, hres, removeEvent, saveEvent, hst, hlook2]
  · have hlook2 : mapLookup s.events.length
        (mapInsert s.events.length e s.events) = some e :=
      mapLookup_mapInsert_self s.events.length e s.events
    simp [addEvent, hres, removeEvent, saveEvent, hnil, hlook2]

/-- Witness for C5: the amended rollback property at the fresh queue with a
Quit event. -/
theorem c5_buffer_reject_rollback_witness :
    (addEvent initState ⟨kQuit, 0, none⟩ false).events =
      initState.events ∧
    (addEvent initState ⟨kQuit, 0, none⟩ false).buffer =
      initState.buffer ∧
    (addEvent initState ⟨kQuit, 0, none⟩ false).deleted =
      initState.deleted ++ [⟨kQuit, 0, none⟩] ∧
    (initState.oldEventIDs ≠ [] →
      (addEvent initState ⟨kQuit, 0, none⟩ false).oldEventIDs =
        initState.oldEventIDs) ∧
    (initState.oldEventIDs = [] →
      (addEvent initState ⟨kQuit, 0, none⟩ false).oldEventIDs =
        [initState.events.length]) :=
  c5_buffer_reject_rollback initState ⟨kQuit, 0, none⟩ (by decide)
    tableInv_init

/-- Witness for C2: a System event is dropped with the state unchanged, and
a Quit event on the fresh queue is saved under id 0 and submitted. -/
theorem c2_reserved_types_dropped_witness :
    addEvent initState ⟨kSystem, 5, none⟩ true = initState ∧
    (addEvent initState ⟨kQuit, 0, none⟩ true).submitted =
      initState.submitted ++ [(saveEvent initState ⟨kQuit, 0, none⟩).1] ∧
    (addEvent initState ⟨kQuit, 0, none⟩ true).allocEver =
      initState.allocEver ++ [(saveEvent initState ⟨kQuit, 0, none⟩).1] ∧
    (true = true →
      (addEvent initState ⟨kQuit, 0, none⟩ true).buffer =
        initState.buffer ++ [(saveEvent initState ⟨kQuit, 0, none⟩).1] ∧
      mapLookup (saveEvent initState ⟨kQuit, 0, none⟩).1
          (addEvent initState ⟨kQuit, 0, none⟩ true).events =
        some ⟨kQuit, 0, none⟩) :=
  ⟨(c2_reserved_types_dropped initState ⟨kSystem, 5, none⟩ true).1
      (Or.inr (Or.inl rfl)),
   (c2_reserved_types_dropped initState ⟨kQuit, 0, none⟩ true).2
      (by decide) (by decide) (by decide)⟩

/-- Witness for C3: with an exact handler 11 on (5, 7) and a wildcard 9 on
(Unknown, 7), type-5 events to target 7 reach 11, type-6 events reach 9,
and events to target 8 reach nobody. -/
theorem c3_handler_fallback_witness :
    dispatchEvent [((5, 7), 11), ((kUnknown, 7), 9)] ⟨5, 7, none⟩ =
      (true, some 11) ∧
    dispatchEvent [((5, 7), 11), ((kUnknown, 7), 9)] ⟨6, 7, none⟩ =
      (true, some 9) ∧
    dispatchEvent [((5, 7), 11), ((kUnknown, 7), 9)] ⟨6, 8, none⟩ =
      (false, none) :=
  ⟨(c3_handler_fallback [((5, 7), 11), ((kUnknown, 7), 9)]
      ⟨5, 7, none⟩).1 11 (by decide),
   (c3_handler_fallback [((5, 7), 11), ((kUnknown, 7), 9)]
      ⟨6, 7, none⟩).2.1 (by decide) 9 (by decide),
   (c3_handler_fallback [((5, 7), 11), ((kUnknown, 7), 9)]
      ⟨6, 8, none⟩).2.2 (by decide) (by decide)⟩

/-- Witness for C7: registering on an Unknown slot in the fresh registry
(next type kLast = 4) allocates 4 once; the second call is a no-op; a
non-Unknown slot (5) is returned unchanged. -/
theorem c7_register_type_once_witness :
    registerTypeOnce ⟨[], 4⟩ kUnknown "x" = (4, 4, ⟨[(4, "x")], 5⟩) ∧
    mapLookup 4 [(4, "x")] = some "x" ∧
    registerTypeOnce ⟨[(4, "x")], 5⟩ 4 "x" = (4, 4, ⟨[(4, "x")], 5⟩) ∧
    registerTypeOnce ⟨[], 4⟩ 5 "x" = (5, 5, ⟨[], 4⟩) :=
  ⟨(c7_register_type_once ⟨[], 4⟩ kUnknown "x" rfl (by decide)
      (by decide)).1,
   (c7_register_type_once ⟨[], 4⟩ kUnknown "x" rfl (by decide)
      (by decide)).2.1,
   (c7_register_type_once ⟨[], 4⟩ kUnknown "x" rfl (by decide)
      (by decide)).2.2.1,
   (c7_register_type_once ⟨[], 4⟩ kUnknown "x" rfl (by decide)
      (by decide)).2.2.2 5 (by decide)⟩

end CEventQueue
